import Mathlib

/-!
Shallow embedding of the Backtrader simulation core
(src/src/order_manager.py, src/src/async_engine.py,
src/src/strategies/base.py, src/src/strategy_manager.py).

Python floats are modelled as rationals (ℚ), timestamps as rationals,
`None` as `Option.none`, dictionaries keyed by uuid as lists in insertion
order with a `next_id` counter standing in for `uuid.uuid4()`.  In-place
mutation of the object returned by `next(...)` / dict lookup is modelled
by replacing the first list element satisfying the same predicate.
-/

set_option linter.unusedVariables false

namespace Backtrader

/-- Slippage models (order_manager.py, `class SlippageModel`). -/
inductive SlippageModel where
  | fixed
  | percentage
  | volatilityAdjusted
deriving DecidableEq, Repr

/-- Order types (order_manager.py, `class OrderType`). -/
inductive OrderType where
  | market
  | limit
  | stop
  | vwap
  | twap
deriving DecidableEq, Repr

/-- Order statuses (order_manager.py, `class OrderStatus`). -/
inductive OrderStatus where
  | pending
  | filled
  | cancelled
deriving DecidableEq, Repr

/-- Order directions (order_manager.py, `class OrderDirection`). -/
inductive OrderDirection where
  | buy
  | sell
deriving DecidableEq, Repr

/-- A trading order (order_manager.py, `class Order`).  `Order.__init__`
sets status pending, fill fields `None` and commission `0.0`. -/
structure Order where
  id : Nat
  symbol : String
  quantity : ℚ
  order_type : OrderType
  direction : OrderDirection
  price : Option ℚ := none
  duration : Option Nat := none
  status : OrderStatus := OrderStatus.pending
  filled_price : Option ℚ := none
  filled_time : Option ℚ := none
  commission : ℚ := 0
deriving DecidableEq, Repr

/-- A trading position (order_manager.py, `class Position`).
`Position.__init__` sets exit fields `None`, commission `0.0` and an empty
order list. -/
structure Position where
  id : Nat
  symbol : String
  quantity : ℚ
  entry_price : ℚ
  entry_time : ℚ
  exit_price : Option ℚ := none
  exit_time : Option ℚ := none
  commission : ℚ := 0
  orders : List Order := []
deriving DecidableEq, Repr

/-- `Position.is_open`: a position is open iff its exit price is unset. -/
def Position.is_open (p : Position) : Bool :=
  p.exit_price.isNone

/-- `Position.close`: record exit price and exit time. -/
def Position.close (p : Position) (exit_price exit_time : ℚ) : Position :=
  { p with exit_price := some exit_price, exit_time := some exit_time }

/-- `Position.add_order`: append the order and accumulate its commission. -/
def Position.add_order (p : Position) (o : Order) : Position :=
  { p with orders := p.orders ++ [o], commission := p.commission + o.commission }

/-- One OHLCV bar restricted to the columns the order manager reads
(`close` and `volume`), with its index timestamp. -/
structure Bar where
  ts : ℚ
  close : ℚ
  volume : ℚ
deriving DecidableEq, Repr

/-- The order/position ledger state (order_manager.py, `class OrderManager`).
`orders` and `positions` model the uuid-keyed dicts as lists in insertion
order; `next_id` stands in for uuid generation. -/
structure OrderManager where
  commission : ℚ := 1/1000
  slippage_model : SlippageModel := SlippageModel.percentage
  slippage : ℚ := 5/10000
  order_fill_delay_ms : ℚ := 50
  orders : List Order := []
  positions : List Position := []
  closed_positions : List Position := []
  cash : ℚ := 0
  next_id : Nat := 0
deriving Repr

/-- The predicate used by `_update_position` to locate the symbol's open
position: `p.is_open() and p.symbol == order.symbol`. -/
def openFor (s : String) (p : Position) : Bool :=
  p.is_open && p.symbol == s

/-- Replace the first element satisfying `pred` (models in-place mutation
of the object found by `next(...)` / a uuid-keyed dict lookup). -/
def replaceFirst {α : Type} (pred : α → Bool) (a : α) : List α → List α
  | [] => []
  | x :: xs => if pred x then a :: xs else x :: replaceFirst pred a xs

/-- The last `n` elements of a list. -/
def takeLast {α : Type} (n : Nat) (l : List α) : List α :=
  l.drop (l.length - n)

/-- Pandas `.iloc[-n:]`.  For `n = 0` the slice is `[-0:]`, and since
`-0 == 0` it selects ALL rows, not the last zero rows; for `n > 0` it is
the last `n` rows (all rows when `n` exceeds the length). -/
def ilocLast {α : Type} (n : Nat) (l : List α) : List α :=
  if n = 0 then l else takeLast n l

/-- `np.sign` on a rational. -/
def rsign (q : ℚ) : Int :=
  if 0 < q then 1 else if q < 0 then -1 else 0

/-- `OrderManager.create_order`: construct a pending order and register it. -/
def create_order (om : OrderManager) (symbol : String) (quantity : ℚ)
    (order_type : OrderType) (direction : OrderDirection)
    (price : Option ℚ) (duration : Option Nat) : OrderManager × Order :=
  let order : Order :=
    { id := om.next_id, symbol := symbol, quantity := quantity,
      order_type := order_type, direction := direction,
      price := price, duration := duration }
  ({ om with orders := om.orders ++ [order], next_id := om.next_id + 1 }, order)

/-- `OrderManager._get_execution_price`.  `data` is the optional trailing
window (`data.loc[:current_time].iloc[-duration:]` selects the last
`duration` rows at or before `current_time`; the label-slicing fallback in
the `except` branch is unreachable for a sorted index). -/
def get_execution_price (om : OrderManager) (order : Order)
    (current_price current_time : ℚ) (data : Option (List Bar)) : Option ℚ :=
  match order.order_type with
  | OrderType.market => some current_price
  | OrderType.limit =>
    match order.price with
    | none => none
    | some p =>
      if (order.direction = OrderDirection.buy ∧ current_price ≤ p) ∨
         (order.direction = OrderDirection.sell ∧ current_price ≥ p) then
        some p
      else none
  | OrderType.stop =>
    match order.price with
    | none => none
    | some p =>
      if (order.direction = OrderDirection.buy ∧ current_price ≥ p) ∨
         (order.direction = OrderDirection.sell ∧ current_price ≤ p) then
        some current_price
      else none
  | OrderType.vwap =>
    match data, order.duration with
    | some bars, some d =>
      let period := ilocLast d (bars.filter (fun b => b.ts ≤ current_time))
      if period.isEmpty then none
      else some ((period.map (fun b => b.close * b.volume)).sum /
                 (period.map Bar.volume).sum)
    | _, _ => none
  | OrderType.twap =>
    match data, order.duration with
    | some bars, some d =>
      let period := ilocLast d (bars.filter (fun b => b.ts ≤ current_time))
      if period.isEmpty then none
      else some ((period.map Bar.close).sum / (period.length : ℚ))
    | _, _ => none

/-- `OrderManager._apply_slippage`.  `vol` embeds the value of
`data['close'].pct_change().rolling(20).std().iloc[-1]` for the supplied
window, `none` standing for `data is None`; as a standard deviation it is
non-negative whenever it is defined. -/
def apply_slippage (om : OrderManager) (order : Order) (execution_price : ℚ)
    (vol : Option ℚ) : ℚ :=
  match om.slippage_model with
  | SlippageModel.fixed =>
    if order.direction = OrderDirection.buy then execution_price + om.slippage
    else execution_price - om.slippage
  | SlippageModel.percentage =>
    if order.direction = OrderDirection.buy then
      execution_price + execution_price * om.slippage
    else execution_price - execution_price * om.slippage
  | SlippageModel.volatilityAdjusted =>
    match vol with
    | none => execution_price
    | some v =>
      if order.direction = OrderDirection.buy then
        execution_price + execution_price * v * om.slippage
      else execution_price - execution_price * v * om.slippage

/-- `OrderManager._update_position`: open, mutate, close, or zero-cross
split the symbol's open position. -/
def update_position (om : OrderManager) (order : Order)
    (execution_price current_time : ℚ) : OrderManager × Option Position :=
  match om.positions.find? (openFor order.symbol) with
  | none =>
    let qty := if order.direction = OrderDirection.buy then order.quantity
               else -order.quantity
    if qty = 0 then (om, none)
    else
      let pos : Position :=
        Position.add_order
          { id := om.next_id, symbol := order.symbol, quantity := qty,
            entry_price := execution_price, entry_time := current_time }
          order
      ({ om with positions := om.positions ++ [pos],
                 next_id := om.next_id + 1 },
       some pos)
  | some open_position =>
    let delta := if order.direction = OrderDirection.buy then order.quantity
                 else -order.quantity
    let new_qty := open_position.quantity + delta
    let attached := open_position.add_order order
    if rsign open_position.quantity ≠ rsign new_qty ∧ new_qty ≠ 0 then
      let closedp := attached.close execution_price current_time
      let new_pos : Position :=
        { id := om.next_id, symbol := order.symbol, quantity := new_qty,
          entry_price := execution_price, entry_time := current_time }
      ({ om with
          positions :=
            replaceFirst (openFor order.symbol) closedp om.positions ++ [new_pos],
          closed_positions := om.closed_positions ++ [closedp],
          next_id := om.next_id + 1 },
       some new_pos)
    else if new_qty = 0 then
      let closedp := attached.close execution_price current_time
      ({ om with
          positions := replaceFirst (openFor order.symbol) closedp om.positions,
          closed_positions := om.closed_positions ++ [closedp] },
       none)
    else
      let modp := { attached with quantity := new_qty }
      ({ om with
          positions := replaceFirst (openFor order.symbol) modp om.positions },
       some modp)

/-- `OrderManager.execute_order`: fill a pending order at the derived
price, mark it filled, apply the cash flow, then update positions.  The
`asyncio.sleep` fill delay has no semantic effect beyond the filled-time
offset, which is modelled as adding `order_fill_delay_ms` on the timestamp
scale. -/
def execute_order (om : OrderManager) (order : Order)
    (current_price current_time : ℚ) (data : Option (List Bar))
    (vol : Option ℚ) : OrderManager × Option Position :=
  if order.status ≠ OrderStatus.pending then (om, none)
  else
    match get_execution_price om order current_price current_time data with
    | none => (om, none)
    | some execution_price =>
      let px := apply_slippage om order execution_price vol
      let comm := px * order.quantity * om.commission
      let filled_time := current_time + om.order_fill_delay_ms
      let filled : Order :=
        { order with
            status := OrderStatus.filled,
            filled_price := some execution_price,
            filled_time := some filled_time,
            commission := comm }
      let om1 : OrderManager :=
        { om with
            orders := replaceFirst (fun o => o.id == order.id) filled om.orders,
            cash :=
              if order.direction = OrderDirection.buy then
                om.cash - (px * order.quantity + comm)
              else
                om.cash + (px * order.quantity - comm) }
      update_position om1 filled px filled_time

/-- `OrderManager.get_open_positions`. -/
def get_open_positions (om : OrderManager) : List Position :=
  om.positions.filter Position.is_open

/-- `OrderManager.close_position`: synthesize an opposing market order for
the full open quantity and route it through `execute_order`; return the
original position only if that call actually closed it. -/
def close_position (om : OrderManager) (position_id : Nat)
    (current_price current_time : ℚ) : OrderManager × Option Position :=
  match om.positions.find? (fun p => p.id == position_id) with
  | none => (om, none)
  | some position =>
    if ¬ position.is_open then (om, none)
    else
      let direction := if 0 < position.quantity then OrderDirection.sell
                       else OrderDirection.buy
      let next := create_order om position.symbol |position.quantity|
        OrderType.market direction none none
      let om2 := (execute_order next.1 next.2 current_price current_time none none).1
      match om2.positions.find? (fun p => p.id == position_id) with
      | some p2 => if ¬ p2.is_open then (om2, some p2) else (om2, none)
      | none => (om2, none)

/-! ## Step driver (src/src/async_engine.py, `AsyncBacktestEngine`) -/

/-- One row of a per-timestamp group of the merged multi-symbol frame:
the columns `_step_through_data` reads are `symbol` and `close`. -/
structure EngineRow where
  symbol : String
  close : ℚ
deriving DecidableEq, Repr

/-- One group of `data.reset_index().groupby('date')`: a distinct
timestamp with the rows of every symbol present at it. -/
structure TimeGroup where
  ts : ℚ
  rows : List EngineRow
deriving DecidableEq, Repr

/-- Engine/strategy configuration read during stepping:
`config.get('sizing_percentage', 0.1)`, `strategy.params.get('stop_loss_pct', 0)`,
`strategy.params.get('take_profit_pct', 0)`, and the precomputed per-symbol
signal series `signals[symbol].get(timestamp)`. -/
structure EngineConfig where
  sizing_percentage : ℚ
  stop_loss_pct : ℚ
  take_profit_pct : ℚ
  signals : String → ℚ → Option ℚ

/-- `group.set_index('symbol')['close'].to_dict()`: the close price of a
symbol at this timestamp (on duplicate symbols the dict keeps the last). -/
def price_lookup (rows : List EngineRow) (s : String) : Option ℚ :=
  (rows.reverse.find? (fun r => r.symbol == s)).map EngineRow.close

/-- The mark-to-market sum of `_step_through_data`: over open positions,
add `quantity × close` when the position's symbol has a row in the current
group; positions whose symbol is absent are excluded from the sum. -/
def mark_to_market (om : OrderManager) (g : TimeGroup) : ℚ :=
  ((get_open_positions om).filterMap (fun p =>
    (price_lookup g.rows p.symbol).map (fun price => p.quantity * price))).sum

/-- Modelled from the spec: `OrderManager.get_position` is called by
`AsyncBacktestEngine._execute_signal` (async_engine.py line 201) but no
definition of it exists under src/.  Spec §4.3 describes the ledger
lookup as "find the open position for the order's symbol (there is at
most one)", which is the lookup `_update_position` itself performs. -/
def get_position (om : OrderManager) (symbol : String) : Option Position :=
  om.positions.find? (openFor symbol)

/-- `AsyncBacktestEngine._execute_signal`: size as a configured fraction
of available cash over the close (floor division truncated to an integer
quantity), skip non-positive prices and non-positive quantities, open a
market buy on signal +1 with no existing position, close the existing
position on signal −1. -/
def execute_signal (cfg : EngineConfig) (om : OrderManager) (signal : ℚ)
    (symbol : String) (close : ℚ) (timestamp : ℚ) : OrderManager :=
  let price := close
  let available_cash := om.cash
  if price ≤ 0 then om
  else
    let pct := cfg.sizing_percentage
    let notional := available_cash * pct
    let quantity : Int := ⌊notional / price⌋
    if quantity ≤ 0 then om
    else
      match get_position om symbol with
      | none =>
        if signal = 1 then
          let next := create_order om symbol (quantity : ℚ) OrderType.market
            OrderDirection.buy none none
          (execute_order next.1 next.2 price timestamp none none).1
        else om
      | some existing_position =>
        if signal = -1 then
          (close_position om existing_position.id price timestamp).1
        else om

/-- The body of `AsyncBacktestEngine._check_exit_conditions` for one open
position: close it when its sign-aware unrealized return breaches the
configured stop-loss (checked first) or take-profit percentage. -/
def close_if_breached (cfg : EngineConfig) (om : OrderManager)
    (position : Position) (price timestamp : ℚ) : OrderManager :=
  if cfg.stop_loss_pct > 0 ∨ cfg.take_profit_pct > 0 then
    let current_return :=
      if 0 < position.quantity then
        (price - position.entry_price) / position.entry_price
      else
        (position.entry_price - price) / position.entry_price
    if cfg.stop_loss_pct > 0 ∧ current_return ≤ -cfg.stop_loss_pct / 100 then
      (close_position om position.id price timestamp).1
    else if cfg.take_profit_pct > 0 ∧ current_return ≥ cfg.take_profit_pct / 100 then
      (close_position om position.id price timestamp).1
    else om
  else om

/-- `AsyncBacktestEngine._check_exit_conditions`: iterate over a snapshot
of the open positions of the given symbol. -/
def check_exit_conditions (cfg : EngineConfig) (om : OrderManager)
    (price timestamp : ℚ) (symbol : String) : OrderManager :=
  ((get_open_positions om).filter (fun p => p.symbol == symbol)).foldl
    (fun acc p => close_if_breached cfg acc p price timestamp) om

/-- The per-row body of the timestamp loop of `_step_through_data`:
dispatch a non-null non-zero signal, then check exit conditions for the
row's symbol. -/
def process_row (cfg : EngineConfig) (ts : ℚ) (om : OrderManager)
    (row : EngineRow) : OrderManager :=
  let om1 :=
    match cfg.signals row.symbol ts with
    | some signal =>
      if signal ≠ 0 then execute_signal cfg om signal row.symbol row.close ts
      else om
    | none => om
  check_exit_conditions cfg om1 row.close ts row.symbol

/-- The mutable engine state that `_step_through_data` threads through
the timestamp loop: the ledger and the appended equity curve
(timestamp, equity). -/
structure EngineState where
  om : OrderManager
  equity_curve : List (ℚ × ℚ)

/-- The body of the timestamp loop of `_step_through_data`: append one
equity point (cash plus mark-to-market), then process each row of the
group. -/
def step_group (cfg : EngineConfig) (st : EngineState) (g : TimeGroup) :
    EngineState :=
  let equity := st.om.cash + mark_to_market st.om g
  { om := g.rows.foldl (process_row cfg g.ts) st.om,
    equity_curve := st.equity_curve ++ [(g.ts, equity)] }

/-- `AsyncBacktestEngine._step_through_data`: fold the timestamp loop over
the merged timeline's groups. -/
def step_through_data (cfg : EngineConfig) (st : EngineState)
    (groups : List TimeGroup) : EngineState :=
  groups.foldl (step_group cfg) st

/-- Specification-side description of the equity curve: one point per
group, carrying the group's timestamp and the equity (cash plus
mark-to-market) of the ledger state current when that timestamp is
reached. -/
def equity_points (cfg : EngineConfig) (om : OrderManager) :
    List TimeGroup → List (ℚ × ℚ)
  | [] => []
  | g :: gs =>
    (g.ts, om.cash + mark_to_market om g) ::
      equity_points cfg (g.rows.foldl (process_row cfg g.ts) om) gs

/-! ## Declarative rule evaluator (src/src/strategies/base.py,
`ComposableStrategy`) -/

/-- The indicator-enriched frame as the evaluator sees it: named columns
of equal length `nrows` over a shared timestamp index. -/
structure Frame where
  cols : List (String × List ℚ)
  nrows : Nat
deriving Repr

/-- Column lookup (`data[column_name]`). -/
def Frame.getCol (f : Frame) (name : String) : Option (List ℚ) :=
  (f.cols.find? (fun c => c.fst == name)).map Prod.snd

/-- Well-formedness of a frame: every column has one value per row of the
shared index, as pandas guarantees for a DataFrame. -/
def Frame.WF (f : Frame) : Prop :=
  ∀ c ∈ f.cols, c.snd.length = f.nrows

/-- A condition operand (`condition['left']` / `condition['right']`):
`kind` is "indicator" (with `ref` naming a registered indicator id) or
"value" (with a literal). -/
structure RuleOperand where
  kind : String
  ref : String := ""
  value : ℚ := 0
deriving DecidableEq, Repr

/-- A leaf condition: two operands and a comparator id ("gt"/"lt"/"eq"). -/
structure RuleCondition where
  left : RuleOperand
  op : String
  right : RuleOperand
deriving DecidableEq, Repr

/-- A condition group: leaf conditions combined with "AND" or "OR". -/
structure RuleGroup where
  op : String := "AND"
  conditions : List RuleCondition
deriving DecidableEq, Repr

/-- A strategy definition as `generate_signals` reads it: optional entry
and exit rules, each a list of OR-combined groups (`none` models a missing
or empty — hence falsy — `entry`/`exit` dict). -/
structure StrategyDefn where
  entry : Option (List RuleGroup) := none
  exit : Option (List RuleGroup) := none
deriving Repr

/-- The value of one operand: a whole indicator column or a scalar
literal. -/
inductive OperandValue where
  | series (vals : List ℚ)
  | scalar (v : ℚ)
deriving DecidableEq, Repr

/-- `ComposableStrategy._get_operand_value`: resolve an indicator
reference through the indicator map and the frame's columns (a missing or
empty mapping, or an absent column, raises), or return a literal. -/
def get_operand_value (indicator_map : List (String × String))
    (operand : RuleOperand) (data : Frame) : Except String OperandValue :=
  if operand.kind == "indicator" then
    match (indicator_map.find? (fun e => e.fst == operand.ref)).map Prod.snd with
    | none => Except.error "indicator not found in data columns"
    | some column_name =>
      if column_name == "" then
        Except.error "indicator not found in data columns"
      else
        match data.getCol column_name with
        | none => Except.error "indicator not found in data columns"
        | some col => Except.ok (OperandValue.series col)
  else if operand.kind == "value" then
    Except.ok (OperandValue.scalar operand.value)
  else
    Except.error "unsupported operand kind"

/-- Elementwise comparison with pandas broadcasting.  A scalar–scalar
comparison yields a bare bool in Python, which the subsequent
`pd.concat` of masks rejects; it is modelled as an error here. -/
def compare_operands (cmp : ℚ → ℚ → Bool) :
    OperandValue → OperandValue → Except String (List Bool)
  | OperandValue.series ls, OperandValue.series rs =>
    Except.ok (List.zipWith cmp ls rs)
  | OperandValue.series ls, OperandValue.scalar v =>
    Except.ok (ls.map (fun x => cmp x v))
  | OperandValue.scalar v, OperandValue.series rs =>
    Except.ok (rs.map (fun x => cmp v x))
  | OperandValue.scalar _, OperandValue.scalar _ =>
    Except.error "scalar comparison yields no mask"

/-- `ComposableStrategy._evaluate_condition`: resolve both operands (a
raised error propagates), then dispatch on the comparator id. -/
def evaluate_condition (indicator_map : List (String × String))
    (c : RuleCondition) (data : Frame) : Except String (List Bool) :=
  match get_operand_value indicator_map c.left data with
  | Except.error e => Except.error e
  | Except.ok left =>
    match get_operand_value indicator_map c.right data with
    | Except.error e => Except.error e
    | Except.ok right =>
      if c.op == "gt" then
        compare_operands (fun a b => decide (a > b)) left right
      else if c.op == "lt" then
        compare_operands (fun a b => decide (a < b)) left right
      else if c.op == "eq" then
        compare_operands (fun a b => decide (a = b)) left right
      else Except.error "unsupported operator"

/-- Evaluate a function over a list, propagating the first raised error
(the list comprehension over conditions / the group loop in Python). -/
def mapMasks {α : Type} (f : α → Except String (List Bool)) :
    List α → Except String (List (List Bool))
  | [] => Except.ok []
  | x :: xs =>
    match f x with
    | Except.error e => Except.error e
    | Except.ok m =>
      match mapMasks f xs with
      | Except.error e => Except.error e
      | Except.ok ms => Except.ok (m :: ms)

/-- `ComposableStrategy._evaluate_group`: an empty condition list yields
an all-false mask; otherwise the condition masks are combined rowwise
with all/any according to the (upper-cased) group operator. -/
def evaluate_group (indicator_map : List (String × String)) (g : RuleGroup)
    (data : Frame) : Except String (List Bool) :=
  let op := g.op.toUpper
  if g.conditions.isEmpty then
    Except.ok (List.replicate data.nrows false)
  else
    match mapMasks (fun c => evaluate_condition indicator_map c data)
        g.conditions with
    | Except.error e => Except.error e
    | Except.ok masks =>
      if op == "AND" then
        Except.ok (masks.foldl (fun acc m => List.zipWith (· && ·) acc m)
          (List.replicate data.nrows true))
      else if op == "OR" then
        Except.ok (masks.foldl (fun acc m => List.zipWith (· || ·) acc m)
          (List.replicate data.nrows false))
      else Except.error "unsupported group operator"

/-- `ComposableStrategy._evaluate_rule_group`: OR the group masks over an
initially all-false mask. -/
def evaluate_rule_group (indicator_map : List (String × String))
    (groups : List RuleGroup) (data : Frame) : Except String (List Bool) :=
  match mapMasks (fun g => evaluate_group indicator_map g data) groups with
  | Except.error e => Except.error e
  | Except.ok masks =>
    Except.ok (masks.foldl (fun acc m => List.zipWith (· || ·) acc m)
      (List.replicate data.nrows false))

/-- Boolean-mask assignment `signals[mask] = v`. -/
def set_where (signals : List Int) (mask : List Bool) (v : Int) : List Int :=
  List.zipWith (fun s b => if b then v else s) signals mask

/-- `ComposableStrategy.generate_signals`: start from all-zero signals,
set +1 where the entry rule matches, then set −1 where the exit rule
matches (exit written after entry). -/
def generate_signals (indicator_map : List (String × String))
    (defn : StrategyDefn) (data : Frame) : Except String (List Int) :=
  let signals0 := List.replicate data.nrows (0 : Int)
  match defn.entry with
  | none =>
    match defn.exit with
    | none => Except.ok signals0
    | some xgroups =>
      match evaluate_rule_group indicator_map xgroups data with
      | Except.error e => Except.error e
      | Except.ok exit_mask => Except.ok (set_where signals0 exit_mask (-1))
  | some egroups =>
    match evaluate_rule_group indicator_map egroups data with
    | Except.error e => Except.error e
    | Except.ok entry_mask =>
      let signals1 := set_where signals0 entry_mask 1
      match defn.exit with
      | none => Except.ok signals1
      | some xgroups =>
        match evaluate_rule_group indicator_map xgroups data with
        | Except.error e => Except.error e
        | Except.ok exit_mask => Except.ok (set_where signals1 exit_mask (-1))

/-- The per-bar signal the spec describes: −1 where the exit rule
matches (exit takes precedence), else +1 where the entry rule matches,
else 0. -/
def signal_of (e x : Bool) : Int :=
  if x then -1 else if e then 1 else 0

/-- The match mask of an optional rule set: all-false when the rule is
missing, otherwise its OR-combined group mask. -/
def rule_matches (indicator_map : List (String × String))
    (rule : Option (List RuleGroup)) (data : Frame) :
    Except String (List Bool) :=
  match rule with
  | none => Except.ok (List.replicate data.nrows false)
  | some groups => evaluate_rule_group indicator_map groups data

/-! ## Strategy registry (src/src/strategy_manager.py, `StrategyManager`)
and the engine's dispatch on it (src/src/async_engine.py,
`run_backtest`). -/

/-- The built-in procedural strategies. -/
inductive StrategyKind where
  | movingAverageCrossover
  | rsiMeanReversion
  | macd
deriving DecidableEq, Repr

/-- `StrategyManager.STRATEGIES`: the name → strategy registry. -/
def STRATEGIES : List (String × StrategyKind) :=
  [("moving_average_crossover", StrategyKind.movingAverageCrossover),
   ("rsi_mean_reversion", StrategyKind.rsiMeanReversion),
   ("macd", StrategyKind.macd)]

/-- `StrategyManager.create_strategy`: return `None` when the name is not
registered, otherwise instantiate the registered strategy. -/
def create_strategy (registered : List (String × StrategyKind))
    (name : String) : Option StrategyKind :=
  match registered.find? (fun e => e.fst == name) with
  | none => none
  | some e => some e.snd

/-- What `AsyncBacktestEngine.run_backtest` does with the strategy name
before stepping. -/
inductive RunOutcome where
  /-- `create_strategy` returned `None`: the engine logs
  "Strategy ... not found" and returns the empty dict. -/
  | emptyResult
  /-- The run proceeds with the instantiated strategy. -/
  | runsWith (s : StrategyKind)
deriving DecidableEq, Repr

/-- The strategy-name dispatch of `AsyncBacktestEngine.run_backtest`
(lines 60–64): `strategy = create_strategy(...)`; `if not strategy:
log error; return {}`. -/
def run_backtest_strategy_dispatch (name : String) : RunOutcome :=
  match create_strategy STRATEGIES name with
  | none => RunOutcome.emptyResult
  | some s => RunOutcome.runsWith s

/-! ## Specification-side definitions and concrete inputs -/

/-- The trailing execution window of a weighted order: exactly the last
`d` bars at or before timestamp `t` (spec §4.2). -/
def lastWindow (d : Nat) (t : ℚ) (bars : List Bar) : List Bar :=
  takeLast d (bars.filter (fun b => b.ts ≤ t))

/-- Volume-weighted average price of a window:
Σ(close × volume) / Σ(volume) (spec §4.2). -/
def vwapOf (w : List Bar) : ℚ :=
  ((w.map (fun b => b.close * b.volume)).sum) / ((w.map Bar.volume).sum)

/-- Time-weighted average price of a window: the arithmetic mean of close
(spec §4.2). -/
def twapOf (w : List Bar) : ℚ :=
  ((w.map Bar.close).sum) / ((w.length : ℚ))

/-- The at-most-one-open-position-per-symbol ledger invariant
(spec §3 / §8). -/
def atMostOneOpenPerSymbol (ps : List Position) : Prop :=
  ∀ s : String, ps.countP (openFor s) ≤ 1

/-- A ledger configured with the percentage slippage model at a 10%
slippage rate. -/
def negPxOM : OrderManager :=
  { slippage_model := SlippageModel.percentage, slippage := 1/10 }

/-- A market buy order of one unit. -/
def negPxOrder : Order :=
  { id := 0, symbol := "X", quantity := 1,
    order_type := OrderType.market, direction := OrderDirection.buy }

/-- A two-bar trailing window whose volumes are all zero. -/
def zeroVolBars : List Bar :=
  [{ ts := 1, close := 10, volume := 0 }, { ts := 2, close := 11, volume := 0 }]

/-- A VWAP buy order of 5 units over the last 2 bars. -/
def zeroVolOrder : Order :=
  { id := 0, symbol := "Z", quantity := 5,
    order_type := OrderType.vwap, direction := OrderDirection.buy,
    duration := some 2 }

/-- A ledger with 10000 cash and the default commission/slippage. -/
def zeroVolOM : OrderManager := { cash := 10000 }

/-- The spec §8 determinism example: a 5-bar window with closes
10,11,12,13,14 and equal volumes 100. -/
def fiveBars : List Bar :=
  [{ ts := 1, close := 10, volume := 100 },
   { ts := 2, close := 11, volume := 100 },
   { ts := 3, close := 12, volume := 100 },
   { ts := 4, close := 13, volume := 100 },
   { ts := 5, close := 14, volume := 100 }]

/-- A VWAP buy order of one unit over the last 5 bars. -/
def vwapOrder5 : Order :=
  { id := 0, symbol := "A", quantity := 1,
    order_type := OrderType.vwap, direction := OrderDirection.buy,
    duration := some 5 }

/-- A TWAP buy order of one unit over the last 5 bars. -/
def twapOrder5 : Order :=
  { id := 1, symbol := "A", quantity := 1,
    order_type := OrderType.twap, direction := OrderDirection.buy,
    duration := some 5 }

/-- A VWAP buy order whose duration is exactly 0. -/
def zeroDurOrder : Order :=
  { id := 2, symbol := "A", quantity := 1,
    order_type := OrderType.vwap, direction := OrderDirection.buy,
    duration := some 0 }

/-- A one-row, one-column indicator-enriched frame. -/
def witFrame : Frame := { cols := [("close", [10])], nrows := 1 }

/-- An engine configuration with default sizing, no stop-loss or
take-profit, and a signal series that is everywhere null. -/
def witCfg : EngineConfig :=
  { sizing_percentage := 1/10, stop_loss_pct := 0, take_profit_pct := 0,
    signals := fun _ _ => none }

/-- A merged two-timestamp timeline with one symbol per bar. -/
def witGroups : List TimeGroup :=
  [{ ts := 1, rows := [{ symbol := "A", close := 10 }] },
   { ts := 2, rows := [{ symbol := "A", close := 11 }] }]

/-- The empty strategy definition (no entry rule, no exit rule). -/
def witDefn : StrategyDefn := { }

/-- An open long position of 10 units entered at 100. -/
def zcLong : Position :=
  { id := 0, symbol := "A", quantity := 10, entry_price := 100,
    entry_time := 1 }

/-- A ledger holding only the open long `zcLong`. -/
def zcOM : OrderManager :=
  { positions := [zcLong], cash := 9000, next_id := 1 }

/-- A sell order of 15 units, carrying a commission of 2, that flips the
long of 10 into a short of −5. -/
def zcSellOrder : Order :=
  { id := 5, symbol := "A", quantity := 15,
    order_type := OrderType.market, direction := OrderDirection.sell,
    commission := 2 }

/-! ## Shared helper lemmas -/

/-- Position bookkeeping never touches cash: `_update_position` only reads
and writes orders/positions. -/
theorem update_position_cash (om : OrderManager) (o : Order) (px t : ℚ) :
    (update_position om o px t).1.cash = om.cash := by
  unfold update_position
  cases om.positions.find? (openFor o.symbol) <;> dsimp only <;>
    (repeat' split) <;> rfl

/-- Order creation never touches cash. -/
theorem create_order_cash (om : OrderManager) (s : String) (q : ℚ)
    (ty : OrderType) (d : OrderDirection) (p : Option ℚ) (du : Option Nat) :
    (create_order om s q ty d p du).1.cash = om.cash := rfl

/-- A no-op `execute_order` (not pending, or no derived price) leaves cash
unchanged. -/
theorem execute_order_noop_cash (om : OrderManager) (o : Order)
    (cp ct : ℚ) (data : Option (List Bar)) (vol : Option ℚ)
    (h : o.status ≠ OrderStatus.pending ∨
      get_execution_price om o cp ct data = none) :
    (execute_order om o cp ct data vol).1.cash = om.cash := by
  unfold execute_order
  rcases h with h | h
  · rw [if_pos h]
  · split
    · rfl
    · split
      · rfl
      · next heq => rw [h] at heq; exact absurd heq (by simp)

/-! ## C1 — cash conservation on fill -/

/-- C1: for every order that `execute_order` fills, cash is updated
exactly once at the moment of fill: a buy decreases cash by exactly
(slippage-adjusted price × quantity + commission) and a sell increases
cash by exactly (slippage-adjusted price × quantity − commission), the
commission being slippage-adjusted-price × quantity × commission-rate;
position updates, order creation and no-op executions never change
cash. -/
theorem execute_order_cash_conservation
    (om : OrderManager) (order : Order) (cp ct : ℚ)
    (data : Option (List Bar)) (vol : Option ℚ) (ep px comm : ℚ)
    (hpend : order.status = OrderStatus.pending)
    (hprice : get_execution_price om order cp ct data = some ep)
    (hpx : px = apply_slippage om order ep vol)
    (hcomm : comm = px * order.quantity * om.commission) :
    ((execute_order om order cp ct data vol).1.cash =
      (if order.direction = OrderDirection.buy then
        om.cash - (px * order.quantity + comm)
      else
        om.cash + (px * order.quantity - comm))) ∧
    (∀ (om2 : OrderManager) (o2 : Order) (px2 t2 : ℚ),
      (update_position om2 o2 px2 t2).1.cash = om2.cash) ∧
    (∀ (om2 : OrderManager) (s : String) (q : ℚ) (ty : OrderType)
      (d : OrderDirection) (p : Option ℚ) (du : Option Nat),
      (create_order om2 s q ty d p du).1.cash = om2.cash) ∧
    (∀ (om2 : OrderManager) (o2 : Order) (cp2 ct2 : ℚ)
      (data2 : Option (List Bar)) (vol2 : Option ℚ),
      o2.status ≠ OrderStatus.pending ∨
        get_execution_price om2 o2 cp2 ct2 data2 = none →
      (execute_order om2 o2 cp2 ct2 data2 vol2).1.cash = om2.cash) := by
  refine ⟨?_, update_position_cash, create_order_cash,
    fun om2 o2 cp2 ct2 data2 vol2 h => execute_order_noop_cash _ _ _ _ _ _ h⟩
  subst hpx hcomm
  unfold execute_order
  rw [if_neg (by simp [hpend]), hprice]
  dsimp only
  rw [update_position_cash]

/-- Witness for C1: a concrete market buy of 10 units at price 100 with
commission rate 1/1000 and zero slippage takes cash from 10000 to
10000 − (100·10 + 1). -/
theorem execute_order_cash_conservation_witness :
    ((execute_order
        { cash := 10000, slippage := 0, commission := 1/1000 }
        { id := 7, symbol := "A", quantity := 10,
          order_type := OrderType.market, direction := OrderDirection.buy }
        100 1 none none).1.cash =
      (if ({ id := 7, symbol := "A", quantity := 10,
             order_type := OrderType.market,
             direction := OrderDirection.buy } : Order).direction =
           OrderDirection.buy then
        (10000 : ℚ) - (100 * 10 + 100 * 10 * (1/1000))
      else
        (10000 : ℚ) + (100 * 10 - 100 * 10 * (1/1000)))) ∧
    (∀ (om2 : OrderManager) (o2 : Order) (px2 t2 : ℚ),
      (update_position om2 o2 px2 t2).1.cash = om2.cash) ∧
    (∀ (om2 : OrderManager) (s : String) (q : ℚ) (ty : OrderType)
      (d : OrderDirection) (p : Option ℚ) (du : Option Nat),
      (create_order om2 s q ty d p du).1.cash = om2.cash) ∧
    (∀ (om2 : OrderManager) (o2 : Order) (cp2 ct2 : ℚ)
      (data2 : Option (List Bar)) (vol2 : Option ℚ),
      o2.status ≠ OrderStatus.pending ∨
        get_execution_price om2 o2 cp2 ct2 data2 = none →
      (execute_order om2 o2 cp2 ct2 data2 vol2).1.cash = om2.cash) :=
  execute_order_cash_conservation
    { cash := 10000, slippage := 0, commission := 1/1000 }
    { id := 7, symbol := "A", quantity := 10,
      order_type := OrderType.market, direction := OrderDirection.buy }
    100 1 none none 100 100 (100 * 10 * (1/1000))
    rfl rfl (by norm_num [apply_slippage]) (by norm_num)

/-! ## C6 — slippage works against the trader -/

/-- Counterexample to C6 as stated: under the percentage model with a
non-negative slippage rate (1/10), a buy at the negative pre-slippage
price −10 fills at −11, strictly below the pre-slippage price, so the
slippage-adjusted buy price is not ≥ the pre-slippage price for every
derived price. -/
theorem apply_slippage_not_adverse_negative_price :
    (0 : ℚ) ≤ negPxOM.slippage ∧
    negPxOrder.direction = OrderDirection.buy ∧
    apply_slippage negPxOM negPxOrder (-10) none = -11 ∧
    apply_slippage negPxOM negPxOrder (-10) none < -10 := by
  refine ⟨by norm_num [negPxOM], rfl, ?_, ?_⟩ <;>
    norm_num [apply_slippage, negPxOM, negPxOrder]

/-- C6 (amended): with a non-negative configured slippage rate and a
non-negative pre-slippage price (and, for the volatility-adjusted model, a
non-negative rolling volatility — a standard deviation — whenever it is
defined), the slippage-adjusted fill price is ≥ the pre-slippage price for
a buy and ≤ it for a sell, under all three slippage models. -/
theorem apply_slippage_adverse (om : OrderManager) (order : Order)
    (px : ℚ) (vol : Option ℚ)
    (hslip : 0 ≤ om.slippage) (hpx : 0 ≤ px)
    (hvol : ∀ v, vol = some v → 0 ≤ v) :
    (order.direction = OrderDirection.buy →
      px ≤ apply_slippage om order px vol) ∧
    (order.direction = OrderDirection.sell →
      apply_slippage om order px vol ≤ px) := by
  cases hm : om.slippage_model with
  | fixed =>
    constructor <;> intro hd <;> simp [apply_slippage, hm, hd] <;> linarith
  | percentage =>
    constructor <;> intro hd <;> simp [apply_slippage, hm, hd] <;>
      nlinarith [mul_nonneg hpx hslip]
  | volatilityAdjusted =>
    cases hv : vol with
    | none => constructor <;> intro hd <;> simp [apply_slippage, hm, hd]
    | some v =>
      have h0 : 0 ≤ v := hvol v hv
      constructor <;> intro hd <;> simp [apply_slippage, hm, hd] <;>
        nlinarith [mul_nonneg (mul_nonneg hpx h0) hslip]

/-- Witness for C6 (amended): with the default percentage model (rate
5/10000) a buy at pre-slippage price 100 fills at a price ≥ 100. -/
theorem apply_slippage_adverse_witness :
    (100 : ℚ) ≤
      apply_slippage ({ } : OrderManager)
        { id := 0, symbol := "A", quantity := 1,
          order_type := OrderType.market,
          direction := OrderDirection.buy } 100 none :=
  (apply_slippage_adverse ({ } : OrderManager)
    { id := 0, symbol := "A", quantity := 1,
      order_type := OrderType.market, direction := OrderDirection.buy }
    100 none (by norm_num) (by norm_num)
    (fun v h => by cases h)).1 rfl

/-! ## C8 — unknown strategy name -/

/-- Counterexample to C8 as stated: requesting a run with the unknown
strategy name "nonexistent_strategy" raises nothing —
`StrategyManager.create_strategy` returns `None` and
`AsyncBacktestEngine.run_backtest` logs the failure and returns the empty
dict, i.e. the run is silently defaulted to an empty result. -/
theorem unknown_strategy_returns_empty_result :
    create_strategy STRATEGIES "nonexistent_strategy" = none ∧
    run_backtest_strategy_dispatch "nonexistent_strategy" =
      RunOutcome.emptyResult := by
  constructor <;> rfl

/-- C8 (amended): an unknown strategy name is never silently defaulted to
an alternative strategy, but no error is raised either: `create_strategy`
returns `None` and the engine returns an empty result; a registered name
runs with exactly the registered strategy. -/
theorem strategy_dispatch_never_raises (name : String) :
    (STRATEGIES.find? (fun e => e.fst == name) = none →
      create_strategy STRATEGIES name = none ∧
      run_backtest_strategy_dispatch name = RunOutcome.emptyResult) ∧
    (∀ s : StrategyKind, create_strategy STRATEGIES name = some s →
      run_backtest_strategy_dispatch name = RunOutcome.runsWith s) := by
  constructor
  · intro h
    have hc : create_strategy STRATEGIES name = none := by
      unfold create_strategy; rw [h]
    exact ⟨hc, by unfold run_backtest_strategy_dispatch; rw [hc]⟩
  · intro s hs
    unfold run_backtest_strategy_dispatch
    rw [hs]

/-- Witness for C8 (amended): the unregistered name "bollinger" yields
`None` and an empty run result. -/
theorem strategy_dispatch_never_raises_witness :
    create_strategy STRATEGIES "bollinger" = none ∧
    run_backtest_strategy_dispatch "bollinger" = RunOutcome.emptyResult :=
  (strategy_dispatch_never_raises "bollinger").1 (by decide)

/-! ## C9 — zero total-volume denominator for a VWAP order -/

/-- C9 fails on the code: with a zero total-volume denominator the price
derivation does not skip the action.  `_get_execution_price` computes
`Σ(close·volume)/Σ(volume)` — `0/0`, a NaN in Python, the rational zero
here — and returns it instead of `None`, so `execute_order` proceeds: the
order is marked filled and an open position is created from the invalid
price.  (In Python the NaN propagates into the order's fill price, the
cash balance and the position.) -/
theorem vwap_zero_volume_not_skipped :
    ((zeroVolBars.map Bar.volume).sum = 0) ∧
    ((get_execution_price zeroVolOM zeroVolOrder 11 2
        (some zeroVolBars)).isSome = true) ∧
    ((execute_order zeroVolOM zeroVolOrder 11 2 (some zeroVolBars)
        none).2.isSome = true) ∧
    ((execute_order zeroVolOM zeroVolOrder 11 2 (some zeroVolBars)
        none).1.positions.filter Position.is_open).length = 1 := by
  refine ⟨by norm_num [zeroVolBars], ?_, ?_, ?_⟩ <;>
    norm_num [execute_order, get_execution_price, apply_slippage,
      update_position, zeroVolOM, zeroVolOrder, zeroVolBars, ilocLast,
      takeLast,
      openFor, Position.add_order, Position.is_open]

/-! ## C5 — VWAP/TWAP price derivation -/

/-- Counterexample to C5 as stated: for a VWAP order with duration
exactly 0, "the last 0 bars" of the trailing window is the empty
selection, for which the claim demands null — but the code's
`iloc[-order.duration:]` is `iloc[-0:]`, which (because `-0 == 0`)
selects ALL rows at or before the current timestamp, so the derivation
returns the VWAP of the whole 5-bar window (12), not null. -/
theorem vwap_zero_duration_not_null :
    zeroDurOrder.duration = some 0 ∧
    takeLast 0 (fiveBars.filter (fun b => b.ts ≤ 5)) = [] ∧
    get_execution_price ({ } : OrderManager) zeroDurOrder 14 5
      (some fiveBars) = some 12 := by
  refine ⟨rfl, ?_, ?_⟩
  · norm_num [takeLast, fiveBars]
  · norm_num [get_execution_price, zeroDurOrder, ilocLast, fiveBars]

/-- C5 (amended): for a volume-weighted or time-weighted order with a
non-null trailing window and a non-null positive duration, the derived
price is computed over exactly the last `duration` bars of the window at
or before the current timestamp — VWAP as Σ(close×volume)/Σ(volume),
TWAP as the arithmetic mean of close — and the derivation returns null
when that selected window is empty, the trailing window is absent, or
the duration is unset; for duration exactly 0 the slice `iloc[-0:]`
selects the entire window at or before the timestamp and the price is
derived over all of it (null only when no bar lies at or before the
timestamp).  On the spec's 5-bar example with closes 10..14 and equal
volumes both derive exactly 12. -/
theorem weighted_order_price :
    (∀ (om : OrderManager) (order : Order) (cp t : ℚ) (bars : List Bar)
      (d : Nat), order.order_type = OrderType.vwap →
      order.duration = some d → d ≠ 0 →
      get_execution_price om order cp t (some bars) =
        (if (lastWindow d t bars).isEmpty then none
         else some (vwapOf (lastWindow d t bars)))) ∧
    (∀ (om : OrderManager) (order : Order) (cp t : ℚ) (bars : List Bar)
      (d : Nat), order.order_type = OrderType.twap →
      order.duration = some d → d ≠ 0 →
      get_execution_price om order cp t (some bars) =
        (if (lastWindow d t bars).isEmpty then none
         else some (twapOf (lastWindow d t bars)))) ∧
    (∀ (om : OrderManager) (order : Order) (cp t : ℚ) (bars : List Bar),
      order.order_type = OrderType.vwap → order.duration = some 0 →
      get_execution_price om order cp t (some bars) =
        (if (bars.filter (fun b => b.ts ≤ t)).isEmpty then none
         else some (vwapOf (bars.filter (fun b => b.ts ≤ t))))) ∧
    (∀ (om : OrderManager) (order : Order) (cp t : ℚ) (bars : List Bar),
      order.order_type = OrderType.twap → order.duration = some 0 →
      get_execution_price om order cp t (some bars) =
        (if (bars.filter (fun b => b.ts ≤ t)).isEmpty then none
         else some (twapOf (bars.filter (fun b => b.ts ≤ t))))) ∧
    (∀ (om : OrderManager) (order : Order) (cp t : ℚ) (bars : List Bar),
      (order.order_type = OrderType.vwap ∨
        order.order_type = OrderType.twap) →
      order.duration = none →
      get_execution_price om order cp t (some bars) = none) ∧
    (∀ (om : OrderManager) (order : Order) (cp t : ℚ),
      (order.order_type = OrderType.vwap ∨
        order.order_type = OrderType.twap) →
      get_execution_price om order cp t none = none) ∧
    get_execution_price ({ } : OrderManager) vwapOrder5 14 5
      (some fiveBars) = some 12 ∧
    get_execution_price ({ } : OrderManager) twapOrder5 14 5
      (some fiveBars) = some 12 := by
  refine ⟨?_, ?_, ?_, ?_, ?_, ?_, ?_, ?_⟩
  · intro om order cp t bars d hty hd hd0
    simp [get_execution_price, hty, hd, ilocLast, hd0, lastWindow, vwapOf]
  · intro om order cp t bars d hty hd hd0
    simp [get_execution_price, hty, hd, ilocLast, hd0, lastWindow, twapOf]
  · intro om order cp t bars hty hd
    simp [get_execution_price, hty, hd, ilocLast, vwapOf]
  · intro om order cp t bars hty hd
    simp [get_execution_price, hty, hd, ilocLast, twapOf]
  · rintro om order cp t bars (hty | hty) hd <;>
      simp [get_execution_price, hty, hd]
  · rintro om order cp t (hty | hty) <;> simp [get_execution_price, hty]
  · norm_num [get_execution_price, vwapOrder5, fiveBars, ilocLast,
      takeLast]
  · norm_num [get_execution_price, twapOrder5, fiveBars, ilocLast,
      takeLast]

/-- Witness for C5 (amended): the VWAP branch instantiated on the spec's
5-bar window with positive duration 5 selects the last 5 bars and yields
Σ(close·volume)/Σ(volume). -/
theorem weighted_order_price_witness :
    get_execution_price ({ } : OrderManager) vwapOrder5 14 5
      (some fiveBars) =
      (if (lastWindow 5 5 fiveBars).isEmpty then none
       else some (vwapOf (lastWindow 5 5 fiveBars))) :=
  weighted_order_price.1 ({ } : OrderManager) vwapOrder5 14 5 fiveBars 5
    rfl rfl (by norm_num)

/-! ## C3 — zero-cross position splitting -/

/-- C3: when a fill makes the net quantity of the symbol's open position
flip sign to a non-zero value, the old position is closed with exit
price/time exactly the fill price/timestamp and appended to the closed
list, and a new position with the residual signed quantity is opened at
that same price and timestamp; when the new net quantity is exactly zero
the old position is closed and nothing is opened; otherwise the existing
position's quantity is modified in place. -/
theorem update_position_zero_cross_split
    (om : OrderManager) (order : Order) (px t delta new_qty : ℚ)
    (p : Position)
    (hfind : om.positions.find? (openFor order.symbol) = some p)
    (hdelta : delta = if order.direction = OrderDirection.buy then
      order.quantity else -order.quantity)
    (hq : new_qty = p.quantity + delta) :
    (rsign p.quantity ≠ rsign new_qty ∧ new_qty ≠ 0 →
      (update_position om order px t).1.closed_positions =
        om.closed_positions ++ [(p.add_order order).close px t] ∧
      ((p.add_order order).close px t).exit_price = some px ∧
      ((p.add_order order).close px t).exit_time = some t ∧
      (update_position om order px t).2 = some
        { id := om.next_id, symbol := order.symbol, quantity := new_qty,
          entry_price := px, entry_time := t } ∧
      (update_position om order px t).1.positions =
        replaceFirst (openFor order.symbol) ((p.add_order order).close px t)
          om.positions ++
          [{ id := om.next_id, symbol := order.symbol, quantity := new_qty,
             entry_price := px, entry_time := t }]) ∧
    (new_qty = 0 →
      (update_position om order px t).1.closed_positions =
        om.closed_positions ++ [(p.add_order order).close px t] ∧
      (update_position om order px t).2 = none ∧
      (update_position om order px t).1.positions =
        replaceFirst (openFor order.symbol) ((p.add_order order).close px t)
          om.positions) ∧
    (rsign p.quantity = rsign new_qty → new_qty ≠ 0 →
      (update_position om order px t).2 =
        some { p.add_order order with quantity := new_qty } ∧
      (update_position om order px t).1.positions =
        replaceFirst (openFor order.symbol)
          { p.add_order order with quantity := new_qty } om.positions ∧
      (update_position om order px t).1.closed_positions =
        om.closed_positions) := by
  subst hdelta hq
  refine ⟨fun hzc => ?_, fun h0 => ?_, fun hs hnz => ?_⟩
  · unfold update_position
    rw [hfind]
    simp only [ne_eq]
    rw [if_pos (by exact ⟨hzc.1, hzc.2⟩)]
    exact ⟨rfl, rfl, rfl, rfl, rfl⟩
  · unfold update_position
    rw [hfind]
    simp only [ne_eq]
    rw [if_neg (by simp [h0]), if_pos h0]
    exact ⟨rfl, rfl, rfl⟩
  · unfold update_position
    rw [hfind]
    simp only [ne_eq]
    rw [if_neg (by simp [hs]), if_neg hnz]
    exact ⟨rfl, rfl, rfl⟩

/-- Witness for C3: the open long of 10 at 100 hit by a sell of 15 at
fill price 105 and fill time 2 is closed at exactly (105, 2) and a new
short of −5 is opened at (105, 2). -/
theorem update_position_zero_cross_split_witness :
    (update_position zcOM zcSellOrder 105 2).1.closed_positions =
      zcOM.closed_positions ++ [(zcLong.add_order zcSellOrder).close 105 2] ∧
    ((zcLong.add_order zcSellOrder).close 105 2).exit_price = some 105 ∧
    ((zcLong.add_order zcSellOrder).close 105 2).exit_time = some 2 ∧
    (update_position zcOM zcSellOrder 105 2).2 = some
      { id := zcOM.next_id, symbol := zcSellOrder.symbol, quantity := -5,
        entry_price := 105, entry_time := 2 } ∧
    (update_position zcOM zcSellOrder 105 2).1.positions =
      replaceFirst (openFor zcSellOrder.symbol)
        ((zcLong.add_order zcSellOrder).close 105 2) zcOM.positions ++
        [{ id := zcOM.next_id, symbol := zcSellOrder.symbol, quantity := -5,
           entry_price := 105, entry_time := 2 }] :=
  (update_position_zero_cross_split zcOM zcSellOrder 105 2 (-15) (-5) zcLong
      rfl (by simp [zcSellOrder]) (by norm_num [zcLong])).1
    (by norm_num [rsign, zcLong])

/-! ## C10 — commission attachment on a zero-cross -/

/-- C10: on a zero-cross fill the incoming order (and its commission) is
attached to the old position before it is closed — the closed position's
orders end with the flipping order and its accumulated commission includes
the order's commission — while the freshly opened residual position starts
with an empty order list and zero commission, its entry price and entry
time equal to the fill price and fill timestamp. -/
theorem zero_cross_commission_attachment
    (om : OrderManager) (order : Order) (px t delta new_qty : ℚ)
    (p : Position)
    (hfind : om.positions.find? (openFor order.symbol) = some p)
    (hdelta : delta = if order.direction = OrderDirection.buy then
      order.quantity else -order.quantity)
    (hq : new_qty = p.quantity + delta)
    (hzc : rsign p.quantity ≠ rsign new_qty) (hnz : new_qty ≠ 0) :
    (update_position om order px t).1.closed_positions.getLast? =
      some ((p.add_order order).close px t) ∧
    ((p.add_order order).close px t).commission =
      p.commission + order.commission ∧
    ((p.add_order order).close px t).orders = p.orders ++ [order] ∧
    (∀ np : Position, (update_position om order px t).2 = some np →
      np.orders = [] ∧ np.commission = 0 ∧ np.quantity = new_qty ∧
      np.entry_price = px ∧ np.entry_time = t) := by
  subst hdelta hq
  have hred :
      (update_position om order px t).1.closed_positions =
        om.closed_positions ++ [(p.add_order order).close px t] ∧
      (update_position om order px t).2 = some
        { id := om.next_id, symbol := order.symbol,
          quantity := p.quantity +
            (if order.direction = OrderDirection.buy then order.quantity
             else -order.quantity),
          entry_price := px, entry_time := t } := by
    unfold update_position
    rw [hfind]
    simp only [ne_eq]
    rw [if_pos (by exact ⟨hzc, hnz⟩)]
    exact ⟨rfl, rfl⟩
  refine ⟨?_, rfl, rfl, ?_⟩
  · rw [hred.1]
    exact List.getLast?_concat _
  · intro np hnp
    rw [hred.2] at hnp
    cases hnp
    exact ⟨rfl, rfl, rfl, rfl, rfl⟩

/-- Witness for C10: in the concrete zero-cross (long 10 hit by a sell
of 15 carrying commission 2) the closed position's commission includes
the 2 and its order list ends with the flipping order, while the new
short starts clean. -/
theorem zero_cross_commission_attachment_witness :
    (update_position zcOM zcSellOrder 105 2).1.closed_positions.getLast? =
      some ((zcLong.add_order zcSellOrder).close 105 2) ∧
    ((zcLong.add_order zcSellOrder).close 105 2).commission =
      zcLong.commission + zcSellOrder.commission ∧
    ((zcLong.add_order zcSellOrder).close 105 2).orders =
      zcLong.orders ++ [zcSellOrder] ∧
    (∀ np : Position, (update_position zcOM zcSellOrder 105 2).2 = some np →
      np.orders = [] ∧ np.commission = 0 ∧ np.quantity = -5 ∧
      np.entry_price = 105 ∧ np.entry_time = 2) :=
  zero_cross_commission_attachment zcOM zcSellOrder 105 2 (-15) (-5) zcLong
    rfl (by simp [zcSellOrder]) (by norm_num [zcLong])
    (by norm_num [rsign, zcLong]) (by norm_num)

/-! ## C2 — at most one open position per symbol -/

/-- If nothing in the list satisfies `pred`, `replaceFirst` is the
identity. -/
theorem replaceFirst_of_find?_none {α : Type} (pred : α → Bool) (a : α) :
    ∀ l : List α, l.find? pred = none → replaceFirst pred a l = l := by
  intro l
  induction l with
  | nil => intro _; rfl
  | cons x xs ih =>
    intro h
    by_cases hx : pred x
    · rw [List.find?_cons_of_pos _ hx] at h
      cases h
    · rw [List.find?_cons_of_neg _ hx] at h
      simp [replaceFirst, hx, ih h]

/-- Counting after replacing the first `pred`-match `x` by `a`: the count
of `q` loses `x`'s contribution and gains `a`'s. -/
theorem countP_replaceFirst {α : Type} (pred q : α → Bool) (a x : α) :
    ∀ l : List α, l.find? pred = some x →
      (replaceFirst pred a l).countP q + (if q x then 1 else 0) =
        l.countP q + (if q a then 1 else 0) := by
  intro l
  induction l with
  | nil => intro h; cases h
  | cons y ys ih =>
    intro h
    by_cases hy : pred y
    · rw [List.find?_cons_of_pos _ hy] at h
      cases h
      simp only [replaceFirst, if_pos hy, List.countP_cons]
      omega
    · rw [List.find?_cons_of_neg _ hy] at h
      have key := ih h
      simp only [replaceFirst, if_neg hy, List.countP_cons]
      omega

/-- A list with no `pred`-match counts zero for `pred`. -/
theorem countP_eq_zero_of_find?_none {α : Type} (pred : α → Bool)
    (l : List α) (h : l.find? pred = none) : l.countP pred = 0 := by
  rw [List.countP_eq_zero]
  intro a ha
  exact List.find?_eq_none.mp h a ha

/-- The facts `find?` gives about the located open position: it is open
and its symbol is the searched one. -/
theorem openFor_found {sym : String} {l : List Position} {p : Position}
    (hfind : l.find? (openFor sym) = some p) :
    p.is_open = true ∧ p.symbol = sym := by
  have hp := List.find?_some hfind
  simpa [openFor, Bool.and_eq_true, beq_iff_eq] using hp

/-- Closing the symbol's unique open position and appending one fresh
open position of the same symbol preserves the invariant. -/
theorem atMostOne_close_open {sym : String} {l : List Position}
    {p c n : Position}
    (hfind : l.find? (openFor sym) = some p)
    (hc : ∀ s, openFor s c = false)
    (hn : ∀ s, openFor s n = (sym == s))
    (h : atMostOneOpenPerSymbol l) :
    atMostOneOpenPerSymbol (replaceFirst (openFor sym) c l ++ [n]) := by
  intro s
  rw [List.countP_append]
  have key := countP_replaceFirst (openFor sym) (openFor s) c p l hfind
  rw [hc s] at key
  have hsingle : List.countP (openFor s) [n] = if sym == s then 1 else 0 := by
    simp [List.countP_cons, hn s]
  have hl := h s
  rw [hsingle]
  by_cases hs : sym = s
  · subst hs
    have hsp : openFor sym p = true := List.find?_some hfind
    rw [hsp] at key
    rw [if_pos (by simp)]
    simp at key
    omega
  · have hp := openFor_found hfind
    have hsp : openFor s p = false := by
      simp [openFor, hp.1, hp.2, beq_iff_eq, hs]
    rw [hsp] at key
    rw [if_neg (by simpa [beq_iff_eq] using hs)]
    simp at key
    omega

/-- Closing the symbol's unique open position (appending nothing)
preserves the invariant. -/
theorem atMostOne_close {sym : String} {l : List Position} {p c : Position}
    (hfind : l.find? (openFor sym) = some p)
    (hc : ∀ s, openFor s c = false)
    (h : atMostOneOpenPerSymbol l) :
    atMostOneOpenPerSymbol (replaceFirst (openFor sym) c l) := by
  intro s
  have key := countP_replaceFirst (openFor sym) (openFor s) c p l hfind
  rw [hc s] at key
  have hl := h s
  cases hsp : openFor s p <;> rw [hsp] at key <;> simp at key <;> omega

/-- Replacing the symbol's open position by one with identical open/symbol
status preserves the invariant. -/
theorem atMostOne_replace_same {sym : String} {l : List Position}
    {p c : Position}
    (hfind : l.find? (openFor sym) = some p)
    (hcp : ∀ s, openFor s c = openFor s p)
    (h : atMostOneOpenPerSymbol l) :
    atMostOneOpenPerSymbol (replaceFirst (openFor sym) c l) := by
  intro s
  have key := countP_replaceFirst (openFor sym) (openFor s) c p l hfind
  rw [hcp s] at key
  have hl := h s
  omega

/-- Appending one fresh open position for a symbol that has no open
position preserves the invariant. -/
theorem atMostOne_append_new {sym : String} {l : List Position}
    {n : Position}
    (hfind : l.find? (openFor sym) = none)
    (hn : ∀ s, openFor s n = (sym == s))
    (h : atMostOneOpenPerSymbol l) :
    atMostOneOpenPerSymbol (l ++ [n]) := by
  intro s
  rw [List.countP_append]
  have hsingle : List.countP (openFor s) [n] = if sym == s then 1 else 0 := by
    simp [List.countP_cons, hn s]
  have hl := h s
  by_cases hs : sym = s
  · subst hs
    have h0 : l.countP (openFor sym) = 0 :=
      countP_eq_zero_of_find?_none _ _ hfind
    rw [h0, hsingle, if_pos (by simp)]
  · rw [hsingle, if_neg (by simpa [beq_iff_eq] using hs)]
    omega

/-- `_update_position` preserves the at-most-one-open-position-per-symbol
invariant. -/
theorem update_position_at_most_one (om : OrderManager) (order : Order)
    (px t : ℚ)
    (h : atMostOneOpenPerSymbol om.positions) :
    atMostOneOpenPerSymbol (update_position om order px t).1.positions := by
  unfold update_position
  cases hfind : om.positions.find? (openFor order.symbol) with
  | none =>
    dsimp only
    split <;> split <;>
      first
        | exact h
        | exact atMostOne_append_new hfind
            (fun s => by simp [openFor, Position.is_open, Position.add_order]) h
  | some p =>
    have hcA : ∀ s, openFor s ((p.add_order order).close px t) = false :=
      fun s => by simp [openFor, Position.is_open, Position.close]
    have hnA : ∀ (q : ℚ) (s : String),
        openFor s ⟨om.next_id, order.symbol, q, px, t, none, none, 0, []⟩ =
          (order.symbol == s) :=
      fun q s => by simp [openFor, Position.is_open]
    dsimp only
    split <;> split <;> try split
    · exact atMostOne_close_open hfind hcA (hnA _) h
    · exact atMostOne_close hfind hcA h
    · exact atMostOne_replace_same hfind (fun s => rfl) h
    · exact atMostOne_close_open hfind hcA (hnA _) h
    · exact atMostOne_close hfind hcA h
    · exact atMostOne_replace_same hfind (fun s => rfl) h

/-- C2: after every `execute_order` call the ledger holds at most one
open position per symbol — if the invariant holds before the call it
holds after, for all symbols. -/
theorem execute_order_at_most_one_open (om : OrderManager) (order : Order)
    (cp ct : ℚ) (data : Option (List Bar)) (vol : Option ℚ)
    (h : atMostOneOpenPerSymbol om.positions) :
    atMostOneOpenPerSymbol
      (execute_order om order cp ct data vol).1.positions := by
  unfold execute_order
  split
  · exact h
  · cases hep : get_execution_price om order cp ct data with
    | none => exact h
    | some ep => exact update_position_at_most_one _ _ _ _ h

/-- Witness for C2: executing a market buy on an empty book leaves at
most one open position per symbol. -/
theorem execute_order_at_most_one_open_witness :
    atMostOneOpenPerSymbol
      (execute_order ({ cash := 10000 } : OrderManager) negPxOrder
        100 1 none none).1.positions :=
  execute_order_at_most_one_open ({ cash := 10000 } : OrderManager)
    negPxOrder 100 1 none none (fun s => by simp)

/-! ## C7 — declarative signal generation -/

/-- A successfully resolved column has one value per row. -/
theorem getCol_length (f : Frame) (name : String) (col : List ℚ)
    (hwf : f.WF) (h : f.getCol name = some col) : col.length = f.nrows := by
  unfold Frame.getCol at h
  cases hf : f.cols.find? (fun c => c.fst == name) with
  | none => rw [hf] at h; cases h
  | some c =>
    rw [hf] at h
    simp at h
    subst h
    exact hwf c (List.mem_of_find?_eq_some hf)

/-- A successfully resolved series operand has one value per row. -/
theorem get_operand_value_series_length (im : List (String × String))
    (operand : RuleOperand) (data : Frame) (col : List ℚ)
    (hwf : data.WF)
    (h : get_operand_value im operand data =
      Except.ok (OperandValue.series col)) :
    col.length = data.nrows := by
  unfold get_operand_value at h
  split at h
  · cases him : (im.find? (fun e => e.fst == operand.ref)).map Prod.snd with
    | none => rw [him] at h; cases h
    | some cn =>
      rw [him] at h
      dsimp only at h
      split at h
      · cases h
      · cases hcol : data.getCol cn with
        | none => rw [hcol] at h; cases h
        | some c2 =>
          rw [hcol] at h
          simp at h
          subst h
          exact getCol_length data cn _ hwf hcol
  · split at h
    · simp at h
    · cases h

/-- A successful broadcast comparison has the row count of its series
operands. -/
theorem compare_operands_ok_length (cmp : ℚ → ℚ → Bool) (n : Nat)
    (l r : OperandValue) (m : List Bool)
    (h : compare_operands cmp l r = Except.ok m)
    (hl : ∀ c, l = OperandValue.series c → c.length = n)
    (hr : ∀ c, r = OperandValue.series c → c.length = n) :
    m.length = n := by
  cases l with
  | series ls =>
    cases r with
    | series rs =>
      simp [compare_operands] at h
      subst h
      rw [List.length_zipWith, hl ls rfl, hr rs rfl, Nat.min_self]
    | scalar v =>
      simp [compare_operands] at h
      subst h
      rw [List.length_map]
      exact hl ls rfl
  | scalar v =>
    cases r with
    | series rs =>
      simp [compare_operands] at h
      subst h
      rw [List.length_map]
      exact hr rs rfl
    | scalar w => cases h

/-- A successfully evaluated condition mask has one entry per row. -/
theorem evaluate_condition_length (im : List (String × String))
    (c : RuleCondition) (data : Frame) (m : List Bool) (hwf : data.WF)
    (h : evaluate_condition im c data = Except.ok m) :
    m.length = data.nrows := by
  unfold evaluate_condition at h
  cases hl : get_operand_value im c.left data with
  | error e => rw [hl] at h; cases h
  | ok lv =>
    rw [hl] at h
    dsimp only at h
    cases hr : get_operand_value im c.right data with
    | error e => rw [hr] at h; cases h
    | ok rv =>
      rw [hr] at h
      dsimp only at h
      have hlv : ∀ col, lv = OperandValue.series col →
          col.length = data.nrows := by
        intro col hcol
        subst hcol
        exact get_operand_value_series_length im c.left data col hwf hl
      have hrv : ∀ col, rv = OperandValue.series col →
          col.length = data.nrows := by
        intro col hcol
        subst hcol
        exact get_operand_value_series_length im c.right data col hwf hr
      split at h
      · exact compare_operands_ok_length _ _ _ _ _ h hlv hrv
      · split at h
        · exact compare_operands_ok_length _ _ _ _ _ h hlv hrv
        · split at h
          · exact compare_operands_ok_length _ _ _ _ _ h hlv hrv
          · cases h

/-- Every mask produced by a successful `mapMasks` satisfies what the
evaluator guarantees of each element. -/
theorem mapMasks_ok_forall {α : Type} (f : α → Except String (List Bool))
    (P : List Bool → Prop) (hf : ∀ a m, f a = Except.ok m → P m) :
    ∀ (l : List α) (ms : List (List Bool)),
      mapMasks f l = Except.ok ms → ∀ m ∈ ms, P m := by
  intro l
  induction l with
  | nil =>
    intro ms h
    cases h
    intro m hm
    cases hm
  | cons x xs ih =>
    intro ms h
    unfold mapMasks at h
    cases hx : f x with
    | error e => rw [hx] at h; cases h
    | ok m0 =>
      rw [hx] at h
      cases hxs : mapMasks f xs with
      | error e => rw [hxs] at h; cases h
      | ok ms0 =>
        rw [hxs] at h
        cases h
        intro m hm
        rcases List.mem_cons.mp hm with hm | hm
        · subst hm; exact hf x _ hx
        · exact ih ms0 hxs m hm

/-- Rowwise folding of equal-length masks preserves the row count. -/
theorem foldl_zipWith_length (f : Bool → Bool → Bool) (n : Nat) :
    ∀ (ms : List (List Bool)) (acc : List Bool), acc.length = n →
      (∀ m ∈ ms, m.length = n) →
      (ms.foldl (fun a m => List.zipWith f a m) acc).length = n := by
  intro ms
  induction ms with
  | nil => intro acc hacc _; exact hacc
  | cons m0 ms0 ih =>
    intro acc hacc hms
    rw [List.foldl_cons]
    refine ih _ ?_ (fun m hm => hms m (List.mem_cons_of_mem _ hm))
    rw [List.length_zipWith, hacc, hms m0 (List.mem_cons_self _ _),
      Nat.min_self]

/-- A successfully evaluated group mask has one entry per row. -/
theorem evaluate_group_length (im : List (String × String)) (g : RuleGroup)
    (data : Frame) (m : List Bool) (hwf : data.WF)
    (h : evaluate_group im g data = Except.ok m) :
    m.length = data.nrows := by
  unfold evaluate_group at h
  dsimp only at h
  split at h
  · cases h
    exact List.length_replicate _ _
  · cases hms : mapMasks (fun c => evaluate_condition im c data)
        g.conditions with
    | error e => rw [hms] at h; cases h
    | ok masks =>
      rw [hms] at h
      dsimp only at h
      have hall : ∀ mk ∈ masks, mk.length = data.nrows :=
        mapMasks_ok_forall _ _
          (fun c mk hc => evaluate_condition_length im c data mk hwf hc)
          g.conditions masks hms
      split at h
      · cases h
        exact foldl_zipWith_length _ _ _ _ (List.length_replicate _ _) hall
      · split at h
        · cases h
          exact foldl_zipWith_length _ _ _ _ (List.length_replicate _ _) hall
        · cases h

/-- A successfully evaluated rule mask has one entry per row. -/
theorem evaluate_rule_group_length (im : List (String × String))
    (groups : List RuleGroup) (data : Frame) (m : List Bool)
    (hwf : data.WF)
    (h : evaluate_rule_group im groups data = Except.ok m) :
    m.length = data.nrows := by
  unfold evaluate_rule_group at h
  cases hms : mapMasks (fun g => evaluate_group im g data) groups with
  | error e => rw [hms] at h; cases h
  | ok masks =>
    rw [hms] at h
    dsimp only at h
    cases h
    exact foldl_zipWith_length _ _ _ _ (List.length_replicate _ _)
      (mapMasks_ok_forall _ _
        (fun g mk hg => evaluate_group_length im g data mk hwf hg)
        groups masks hms)

/-- Overwriting zeros by +1 on the entry mask and then −1 on the exit
mask equals the pointwise exit-precedence signal. -/
theorem set_where_both :
    ∀ (em xm : List Bool), em.length = xm.length →
      set_where (set_where (List.replicate em.length (0 : Int)) em 1) xm
          (-1) =
        List.zipWith signal_of em xm := by
  intro em
  induction em with
  | nil =>
    intro xm h
    have hx : xm = [] := List.length_eq_zero.mp h.symm
    subst hx
    rfl
  | cons e es ih =>
    intro xm h
    cases xm with
    | nil => simp at h
    | cons x xs =>
      have h2 : es.length = xs.length := by
        simp only [List.length_cons] at h
        omega
      simp only [List.length_cons, List.replicate_succ, set_where,
        List.zipWith_cons_cons, List.cons.injEq]
      exact ⟨rfl, ih xs h2⟩

/-- Overwriting zeros by −1 on the exit mask alone (missing entry rule)
equals the pointwise signal against an all-false entry mask. -/
theorem set_where_exit_only :
    ∀ xm : List Bool,
      set_where (List.replicate xm.length (0 : Int)) xm (-1) =
        List.zipWith signal_of (List.replicate xm.length false) xm := by
  intro xm
  induction xm with
  | nil => rfl
  | cons x xs ih =>
    simp only [List.length_cons, List.replicate_succ, set_where,
      List.zipWith_cons_cons, List.cons.injEq]
    exact ⟨rfl, ih⟩

/-- Overwriting zeros by +1 on the entry mask alone (missing exit rule)
equals the pointwise signal against an all-false exit mask. -/
theorem set_where_entry_only :
    ∀ em : List Bool,
      set_where (List.replicate em.length (0 : Int)) em 1 =
        List.zipWith signal_of em (List.replicate em.length false) := by
  intro em
  induction em with
  | nil => rfl
  | cons e es ih =>
    simp only [List.length_cons, List.replicate_succ, set_where,
      List.zipWith_cons_cons, List.cons.injEq]
    exact ⟨rfl, ih⟩

/-- All-zero signals equal the pointwise signal of two all-false masks. -/
theorem replicate_zero_signals (n : Nat) :
    List.replicate n (0 : Int) =
      List.zipWith signal_of (List.replicate n false)
        (List.replicate n false) := by
  induction n with
  | zero => rfl
  | succ k ih =>
    simp only [List.replicate_succ, List.zipWith_cons_cons,
      List.cons.injEq]
    exact ⟨rfl, ih⟩


/-- Every pointwise signal value is +1, −1 or 0. -/
theorem signal_of_mem (em : List Bool) :
    ∀ (xm : List Bool) (v : Int), v ∈ List.zipWith signal_of em xm →
      v = 1 ∨ v = -1 ∨ v = 0 := by
  induction em with
  | nil => intro xm v hv; cases hv
  | cons e es ih =>
    intro xm v hv
    cases xm with
    | nil => cases hv
    | cons x xs =>
      rw [List.zipWith_cons_cons] at hv
      rcases List.mem_cons.mp hv with hv | hv
      · subst hv
        rcases x <;> rcases e <;> simp [signal_of]
      · exact ih xs v hv

/-- C7: for every declarative strategy and indicator-enriched frame on
which signal generation succeeds, the signal series has exactly one value
per input row, each value in {+1, −1, 0}; a row where any OR-combined
entry group matches yields +1, a row where any exit group matches yields
−1, and a row matching both yields −1 (exit is written after entry). -/
theorem composable_signals_characterization
    (im : List (String × String)) (defn : StrategyDefn) (data : Frame)
    (sigs : List Int) (hwf : data.WF)
    (h : generate_signals im defn data = Except.ok sigs) :
    ∃ em xm, rule_matches im defn.entry data = Except.ok em ∧
      rule_matches im defn.exit data = Except.ok xm ∧
      em.length = data.nrows ∧ xm.length = data.nrows ∧
      sigs = List.zipWith signal_of em xm ∧
      sigs.length = data.nrows ∧
      (∀ v ∈ sigs, v = 1 ∨ v = -1 ∨ v = 0) := by
  unfold generate_signals at h
  have hrep : (List.replicate data.nrows false).length = data.nrows :=
    List.length_replicate _ _
  cases he : defn.entry with
  | none =>
    rw [he] at h
    cases hx : defn.exit with
    | none =>
      rw [hx] at h
      dsimp only at h
      cases h
      refine ⟨List.replicate data.nrows false,
        List.replicate data.nrows false, rfl, rfl, hrep, hrep,
        replicate_zero_signals _, List.length_replicate _ _, ?_⟩
      intro v hv
      rw [replicate_zero_signals] at hv
      exact signal_of_mem _ _ v hv
    | some xgroups =>
      rw [hx] at h
      dsimp only at h
      cases hxm : evaluate_rule_group im xgroups data with
      | error e => rw [hxm] at h; cases h
      | ok xm =>
        rw [hxm] at h
        dsimp only at h
        cases h
        have hxl : xm.length = data.nrows :=
          evaluate_rule_group_length im xgroups data xm hwf hxm
        have hform : set_where (List.replicate data.nrows 0) xm (-1) =
            List.zipWith signal_of (List.replicate data.nrows false) xm := by
          rw [← hxl]
          exact set_where_exit_only xm
        refine ⟨List.replicate data.nrows false, xm, rfl, ?_, hrep, hxl,
          hform, ?_, ?_⟩
        · simp [rule_matches, hxm]
        · rw [hform, List.length_zipWith, List.length_replicate, hxl,
            Nat.min_self]
        · intro v hv
          rw [hform] at hv
          exact signal_of_mem _ _ v hv
  | some egroups =>
    rw [he] at h
    dsimp only at h
    cases hem : evaluate_rule_group im egroups data with
    | error e => rw [hem] at h; cases h
    | ok em =>
      rw [hem] at h
      dsimp only at h
      have hel : em.length = data.nrows :=
        evaluate_rule_group_length im egroups data em hwf hem
      cases hx : defn.exit with
      | none =>
        rw [hx] at h
        dsimp only at h
        cases h
        have hform : set_where (List.replicate data.nrows 0) em 1 =
            List.zipWith signal_of em (List.replicate data.nrows false) := by
          rw [← hel]
          exact set_where_entry_only em
        refine ⟨em, List.replicate data.nrows false, ?_, rfl, hel, hrep,
          hform, ?_, ?_⟩
        · simp [rule_matches, hem]
        · rw [hform, List.length_zipWith, List.length_replicate, hel,
            Nat.min_self]
        · intro v hv
          rw [hform] at hv
          exact signal_of_mem _ _ v hv
      | some xgroups =>
        rw [hx] at h
        dsimp only at h
        cases hxm : evaluate_rule_group im xgroups data with
        | error e => rw [hxm] at h; cases h
        | ok xm =>
          rw [hxm] at h
          dsimp only at h
          cases h
          have hxl : xm.length = data.nrows :=
            evaluate_rule_group_length im xgroups data xm hwf hxm
          have hform :
              set_where (set_where (List.replicate data.nrows 0) em 1) xm
                  (-1) =
                List.zipWith signal_of em xm := by
            rw [← hel]
            exact set_where_both em xm (hel.trans hxl.symm)
          refine ⟨em, xm, ?_, ?_, hel, hxl, hform, ?_, ?_⟩
          · simp [rule_matches, hem]
          · simp [rule_matches, hxm]
          · rw [hform, List.length_zipWith, hel, hxl, Nat.min_self]
          · intro v hv
            rw [hform] at hv
            exact signal_of_mem _ _ v hv


/-- Witness for C7: a one-row frame with a close column and no entry or
exit rules generates the all-hold signal series, characterized by the
theorem. -/
theorem composable_signals_characterization_witness :
    ∃ em xm,
      rule_matches [] witDefn.entry witFrame = Except.ok em ∧
      rule_matches [] witDefn.exit witFrame = Except.ok xm ∧
      em.length = witFrame.nrows ∧ xm.length = witFrame.nrows ∧
      [0] = List.zipWith signal_of em xm ∧
      List.length [(0 : Int)] = witFrame.nrows ∧
      (∀ v ∈ [(0 : Int)], v = 1 ∨ v = -1 ∨ v = 0) :=
  composable_signals_characterization [] witDefn witFrame [0]
    (by simp [Frame.WF, witFrame]) rfl

/-! ## C4 — equity-curve structure of the step driver -/

/-- The curve accumulated by the foldl of `_step_through_data` is the
initial curve followed by the per-timestamp points of `equity_points`. -/
theorem step_through_data_curve (cfg : EngineConfig) :
    ∀ (groups : List TimeGroup) (om : OrderManager)
      (curve0 : List (ℚ × ℚ)),
      (step_through_data cfg ⟨om, curve0⟩ groups).equity_curve =
        curve0 ++ equity_points cfg om groups := by
  intro groups
  induction groups with
  | nil =>
    intro om curve0
    simp [step_through_data, equity_points]
  | cons g gs ih =>
    intro om curve0
    show (step_through_data cfg (step_group cfg ⟨om, curve0⟩ g)
        gs).equity_curve = _
    rw [show step_group cfg ⟨om, curve0⟩ g =
        ⟨g.rows.foldl (process_row cfg g.ts) om,
          curve0 ++ [(g.ts, om.cash + mark_to_market om g)]⟩ from rfl]
    rw [ih]
    rw [show equity_points cfg om (g :: gs) =
        (g.ts, om.cash + mark_to_market om g) ::
          equity_points cfg (g.rows.foldl (process_row cfg g.ts) om) gs
      from rfl]
    simp

/-- `equity_points` carries exactly the input groups' timestamps, in
order. -/
theorem equity_points_map_fst (cfg : EngineConfig) :
    ∀ (groups : List TimeGroup) (om : OrderManager),
      (equity_points cfg om groups).map Prod.fst =
        groups.map TimeGroup.ts := by
  intro groups
  induction groups with
  | nil => intro om; rfl
  | cons g gs ih =>
    intro om
    rw [show equity_points cfg om (g :: gs) =
        (g.ts, om.cash + mark_to_market om g) ::
          equity_points cfg (g.rows.foldl (process_row cfg g.ts) om) gs
      from rfl]
    simp [ih]

/-- C4: over a merged multi-symbol timeline with strictly increasing
distinct timestamps, the step driver's equity curve has exactly one point
per distinct timestamp, in strictly increasing timestamp order, and each
point's equity is the cash of the ledger state current at that timestamp
plus the sum of quantity × close over open positions whose symbol has a
bar at that timestamp (positions of absent symbols are excluded), as
`equity_points` prescribes. -/
theorem equity_curve_structure (cfg : EngineConfig) (om : OrderManager)
    (groups : List TimeGroup)
    (hsorted : List.Chain' (· < ·) (groups.map TimeGroup.ts)) :
    (step_through_data cfg ⟨om, []⟩ groups).equity_curve =
      equity_points cfg om groups ∧
    ((step_through_data cfg ⟨om, []⟩ groups).equity_curve).map Prod.fst =
      groups.map TimeGroup.ts ∧
    List.Chain' (· < ·)
      (((step_through_data cfg ⟨om, []⟩ groups).equity_curve).map
        Prod.fst) := by
  have h1 : (step_through_data cfg ⟨om, []⟩ groups).equity_curve =
      equity_points cfg om groups := by
    rw [step_through_data_curve cfg groups om []]
    simp
  have h2 : ((step_through_data cfg ⟨om, []⟩ groups).equity_curve).map
      Prod.fst = groups.map TimeGroup.ts := by
    rw [h1, equity_points_map_fst]
  exact ⟨h1, h2, h2 ▸ hsorted⟩

/-- Witness for C4: a concrete two-timestamp timeline (one symbol per
bar, no signals) produces the curve that `equity_points` prescribes, with
one strictly increasing point per timestamp. -/
theorem equity_curve_structure_witness :
    (step_through_data witCfg ⟨zeroVolOM, []⟩ witGroups).equity_curve =
      equity_points witCfg zeroVolOM witGroups ∧
    ((step_through_data witCfg ⟨zeroVolOM, []⟩ witGroups).equity_curve).map
      Prod.fst = witGroups.map TimeGroup.ts ∧
    List.Chain' (· < ·)
      (((step_through_data witCfg ⟨zeroVolOM, []⟩
        witGroups).equity_curve).map Prod.fst) :=
  equity_curve_structure witCfg zeroVolOM witGroups
    (by norm_num [witGroups, List.chain'_cons])

end Backtrader








